import Mathlib

/-!
Verification of the shell-environment provisioning core of `sneakpeek`
(`src/core/shell-env.ts`).  JavaScript strings are modelled as `List Char`
(`JStr`); the JavaScript string methods used by the source (`trim`,
`trimStart`, `trimEnd`, `includes`, `indexOf`, `slice`, `split`,
`startsWith`, `endsWith`, `replaceAll`) are given explicit definitions with
JavaScript semantics (indexOf returns -1 on failure, slice clamps and
accepts negative indices, falsy empty strings, …).  File-system and
process-environment effects of `ensureZaiShellEnv` are modelled by explicit
state passing (`SysState`) plus a read-only world configuration (`SysCfg`);
the unguarded `fs.readFileSync` / `fs.writeFileSync` calls of the source are
modelled in an exception monad (`Except`), where a raised error that no
`try/catch` intercepts surfaces as `Except.error`.
-/

/-- JavaScript strings, modelled as lists of characters. -/
abbrev JStr := List Char

/-- Conversion from Lean string literals to the model. -/
def str (s : String) : JStr := s.toList

/-- ECMAScript whitespace (the WhiteSpace and LineTerminator productions):
space, tab, LF, VT, FF, CR, NBSP, BOM, the Unicode space separators and the
line/paragraph separators.  This is the character class trimmed by the
JavaScript `trim` family. -/
def isJsWs (c : Char) : Bool :=
  c = ' ' || c = '\t' || c = '\n' || c = '\r' ||
  c = '\x0b' || c = '\x0c' || c = ' ' || c = '﻿' ||
  c = ' ' || (0x2000 ≤ c.toNat && c.toNat ≤ 0x200a) ||
  c = ' ' || c = ' ' || c = ' ' || c = ' ' ||
  c = '　'

/-- JavaScript `String.prototype.trimStart`. -/
def jsTrimStart (l : JStr) : JStr := l.dropWhile isJsWs

/-- JavaScript `String.prototype.trimEnd`. -/
def jsTrimEnd (l : JStr) : JStr := (l.reverse.dropWhile isJsWs).reverse

/-- JavaScript `String.prototype.trim`. -/
def jsTrim (l : JStr) : JStr := jsTrimStart (jsTrimEnd l)

/-- The `leadsWith pat l` is JavaScript `l.startsWith(pat)`. -/
def leadsWith : JStr → JStr → Bool
  | [], _ => true
  | _ :: _, [] => false
  | a :: as, b :: bs => a == b && leadsWith as bs

/-- JavaScript `l.endsWith(suf)`. -/
def jsEndsWith (l suf : JStr) : Bool := leadsWith suf.reverse l.reverse

/-- Index of the first occurrence of `pat` in `l`, if any
(the search engine behind JavaScript `indexOf` / `includes`). -/
def firstIdx : JStr → JStr → Option Nat
  | [], pat => if leadsWith pat [] then some 0 else none
  | c :: t, pat =>
      if leadsWith pat (c :: t) then some 0 else (firstIdx t pat).map (· + 1)

/-- JavaScript `l.includes(pat)`. -/
def jsIncludes (l pat : JStr) : Bool := (firstIdx l pat).isSome

/-- JavaScript `l.indexOf(pat)`: the first index, or `-1`. -/
def jsIndexOf (l pat : JStr) : Int :=
  match firstIdx l pat with
  | none => -1
  | some n => n

/-- JavaScript `l.indexOf(pat, from)`: first occurrence at or after `from`
(a negative `from` is clamped to 0), or `-1`. -/
def jsIndexOfFrom (l pat : JStr) (frm : Int) : Int :=
  match firstIdx (l.drop frm.toNat) pat with
  | none => -1
  | some n => (frm.toNat : Int) + n

/-- JavaScript `l.slice(b, e)` with its clamping of out-of-range indices and
interpretation of negative indices as counting from the end. -/
def jsSlice (l : JStr) (b e : Int) : JStr :=
  let len : Int := l.length
  let b' := if b < 0 then max (len + b) 0 else min b len
  let e' := if e < 0 then max (len + e) 0 else min e len
  (l.take e'.toNat).drop b'.toNat

/-- JavaScript `l.slice(b)` (one-argument form). -/
def jsSliceFrom (l : JStr) (b : Int) : JStr := jsSlice l b l.length

/-- JavaScript `l.split('\n')` (splitting on a single newline character;
the empty string splits to `[""]`). -/
def splitNl : JStr → List JStr
  | [] => [[]]
  | c :: t =>
      let r := splitNl t
      if c = '\n' then [] :: r
      else
        match r with
        | [] => [[c]]
        | h :: t' => (c :: h) :: t'

/-- Worker for JavaScript `replaceAll` with a non-empty search pattern:
scan left to right, replace each non-overlapping occurrence and resume after
the replacement.  The fuel argument (instantiated with the input length,
an upper bound on the number of scan steps) only makes the recursion
structural.  (With an empty pattern the scan never fires and the input is
returned; the engine only ever calls this with the two-character pattern
`\"` or `\'`.) -/
def replaceGo (pat rep : JStr) : Nat → JStr → JStr
  | _, [] => []
  | 0, l => l
  | fuel + 1, c :: t =>
      if pat ≠ [] ∧ leadsWith pat (c :: t) = true then
        rep ++ replaceGo pat rep fuel (t.drop (pat.length - 1))
      else
        c :: replaceGo pat rep fuel t

/-- JavaScript `l.replaceAll(pat, rep)` for the literal-string form used by
the source. -/
def replaceAll (l pat rep : JStr) : JStr := replaceGo pat rep l.length l

/-- The `path.posix.basename`: last path component, ignoring trailing slashes. -/
def basename (p : JStr) : JStr :=
  let q := (p.reverse.dropWhile (fun c => c = '/')).reverse
  (q.reverse.takeWhile (fun c => c ≠ '/')).reverse

/-- The `path.posix.dirname` (for the well-formed paths arising here): strip the
last component; `"."` when there is no separator. -/
def dirname (p : JStr) : JStr :=
  let q := (p.reverse.dropWhile (fun c => c = '/')).reverse
  let r := q.reverse.dropWhile (fun c => c ≠ '/')
  let r2 := r.dropWhile (fun c => c = '/')
  if r2 = [] then (if leadsWith (str "/") p then str "/" else str ".") else r2.reverse

/-- The `path.join(a, b)` for the already-normalized arguments the source joins. -/
def jsPathJoin (a b : JStr) : JStr := if a = [] then b else a ++ '/' :: b

-- From here on, the definitions are the translation of
-- `src/core/shell-env.ts`, keeping the source's names.

/-- The `type ShellType = 'zsh' | 'bash' | 'powershell' | 'powershell-core' | 'unknown'`. -/
inductive ShellType where
  | zsh
  | bash
  | powershell
  | powershellCore
  | unknown
deriving DecidableEq

/-- The `type ShellEnvStatus = 'updated' | 'skipped' | 'failed'`. -/
inductive ShellEnvStatus where
  | updated
  | skipped
  | failed
deriving DecidableEq

/-- The `interface ShellEnvResult { status; message?; path? }`. -/
structure ShellEnvResult where
  status : ShellEnvStatus
  message : Option JStr
  path : Option JStr
deriving DecidableEq

/-- The `const SETTINGS_FILE = 'settings.json'`. -/
def SETTINGS_FILE : JStr := str "settings.json"

/-- The `const BLOCK_START_UNIX = '# claude-sneakpeek: Z.ai env start'`. -/
def BLOCK_START_UNIX : JStr := str "# claude-sneakpeek: Z.ai env start"

/-- The `const BLOCK_END_UNIX = '# claude-sneakpeek: Z.ai env end'`. -/
def BLOCK_END_UNIX : JStr := str "# claude-sneakpeek: Z.ai env end"

/-- The `const BLOCK_START_POWERSHELL` (same literal as the Unix start marker). -/
def BLOCK_START_POWERSHELL : JStr := str "# claude-sneakpeek: Z.ai env start"

/-- The `const BLOCK_END_POWERSHELL` (same literal as the Unix end marker). -/
def BLOCK_END_POWERSHELL : JStr := str "# claude-sneakpeek: Z.ai env end"

/-- The `const PLACEHOLDER_KEY = '<API_KEY>'`. -/
def PLACEHOLDER_KEY : JStr := str "<API_KEY>"

/-- The `normalizeApiKey` (lines 28-33): `null`/`undefined`/empty are falsy and
give `null`; otherwise trim, and reject empty or placeholder results. -/
def normalizeApiKey (value : Option JStr) : Option JStr :=
  match value with
  | none => none
  | some v =>
      if v = [] then none
      else
        let trimmed := jsTrim v
        if trimmed = [] ∨ trimmed = PLACEHOLDER_KEY then none else some trimmed

/-- The `detectShellFromPath` (lines 109-123). -/
def detectShellFromPath (profilePath : JStr) : ShellType :=
  let b := basename profilePath
  if jsEndsWith b (str ".ps1") then .powershell
  else if b = str ".zshrc" then .zsh
  else if b = str ".bashrc" ∨ b = str ".bash_profile" then .bash
  else .unknown

/-- The `renderBlock` (lines 137-144). -/
def renderBlock (apiKey : JStr) (shell : ShellType) : JStr :=
  if shell = .powershell ∨ shell = .powershellCore then
    BLOCK_START_POWERSHELL ++ str "\n$env:Z_AI_API_KEY=\"" ++ apiKey ++
      str "\"\n" ++ BLOCK_END_POWERSHELL ++ str "\n"
  else
    BLOCK_START_UNIX ++ str "\nexport Z_AI_API_KEY=\"" ++ apiKey ++
      str "\"\n" ++ BLOCK_END_UNIX ++ str "\n"

/-- The `getBlockMarkers` (lines 149-154). -/
def getBlockMarkers (shell : ShellType) : JStr × JStr :=
  if shell = .powershell ∨ shell = .powershellCore then
    (BLOCK_START_POWERSHELL, BLOCK_END_POWERSHELL)
  else
    (BLOCK_START_UNIX, BLOCK_END_UNIX)

/-- The `upsertBlock` (lines 156-166).  Note that `indexOf(end, startIndex)` can
be `-1` when the end marker only occurs before the start marker; the source
then slices from `-1 + end.length`, which this translation reproduces. -/
def upsertBlock (content block : JStr) (shell : ShellType) : JStr :=
  let markers := getBlockMarkers shell
  let start := markers.1
  let endM := markers.2
  if jsIncludes content start = true ∧ jsIncludes content endM = true then
    let startIndex : Int := jsIndexOf content start
    let endIndex : Int := jsIndexOfFrom content endM startIndex
    let before := jsTrimEnd (jsSlice content 0 startIndex)
    let after := jsTrimStart (jsSliceFrom content (endIndex + (endM.length : Int)))
    jsTrimEnd (before ++ str "\n\n" ++ block ++ str "\n" ++ after) ++ str "\n"
  else
    jsTrimEnd (jsTrimEnd content ++ str "\n\n" ++ block) ++ str "\n"

/-- The `parseQuotedValue` (lines 172-190). -/
def parseQuotedValue (value : JStr) : Option JStr :=
  let v := jsTrim value
  if v.length < 2 then none
  else
    let firstChar := v.headD ' '
    let lastChar := v.getLastD ' '
    if (firstChar = '"' ∧ lastChar = '"') ∨ (firstChar = '\'' ∧ lastChar = '\'') then
      let inner := jsSlice v 1 (-1)
      some (replaceAll inner ['\\', firstChar] [firstChar])
    else
      some v

/-- One iteration of the line loop of `hasZaiKeyInProfile` (lines 197-220);
`false` corresponds to `continue`. -/
def lineHasKey (shell : ShellType) (line : JStr) : Bool :=
  let trimmed := jsTrim line
  if trimmed = [] then false
  else if leadsWith (str "#") trimmed = true then false
  else if shell = .powershell ∨ shell = .powershellCore then
    let envStripped :=
      if leadsWith (str "$env:") trimmed = true then jsSliceFrom trimmed 5 else trimmed
    if leadsWith (str "Z_AI_API_KEY") envStripped = false then false
    else
      let equalsIndex := jsIndexOf envStripped (str "=")
      if equalsIndex = -1 then false
      else
        let rawValue := jsTrim (jsSliceFrom envStripped (equalsIndex + 1))
        match parseQuotedValue rawValue with
        | none => false
        | some v => decide (v ≠ []) && (normalizeApiKey (some v)).isSome
  else
    let exportStripped :=
      if leadsWith (str "export ") trimmed = true then jsTrim (jsSliceFrom trimmed 7)
      else trimmed
    if leadsWith (str "Z_AI_API_KEY") exportStripped = false then false
    else
      let equalsIndex := jsIndexOf exportStripped (str "=")
      if equalsIndex = -1 then false
      else
        let rawValue := jsTrim (jsSliceFrom exportStripped (equalsIndex + 1))
        match parseQuotedValue rawValue with
        | none => false
        | some v => decide (v ≠ []) && (normalizeApiKey (some v)).isSome

/-- The `hasZaiKeyInProfile` (lines 195-222): scan the lines and report the first
effective assignment. -/
def hasZaiKeyInProfile (content : JStr) (shell : ShellType) : Bool :=
  (splitNl content).any (lineHasKey shell)

/-- Mutable world state: the files on disk (path, content) and the record of
directories created by `fs.mkdirSync`. -/
structure SysState where
  files : List (JStr × JStr)
  dirs : List JStr
deriving DecidableEq

/-- Association-list lookup backing `fs.existsSync` / `fs.readFileSync`. -/
def lookupFile : List (JStr × JStr) → JStr → Option JStr
  | [], _ => none
  | (q, c) :: t, p => if q = p then some c else lookupFile t p

/-- The `fs.existsSync`. -/
def existsSync (st : SysState) (p : JStr) : Bool := (lookupFile st.files p).isSome

/-- The `fs.writeFileSync`: overwrite or create. -/
def setFile : List (JStr × JStr) → JStr → JStr → List (JStr × JStr)
  | [], p, c => [(p, c)]
  | (q, d) :: t, p, c => if q = p then (p, c) :: t else (q, d) :: setFile t p c

/-- Read-only world configuration: the process-environment snapshot, the home
directory, and fault injection for the file-system primitives.
`isWindows` models `process.platform === 'win32'` from the repository's
`paths.ts` (not part of the provided sources).  `settingsParse` is modelled
from the spec: it stands for `readJson` of `fs.ts` (also not in the provided
sources) composed with the `settings?.env?.ANTHROPIC_API_KEY` extraction —
it yields the key when the sidecar parses to an object whose `env` record
holds a string key, and `none` when the file is malformed or the field is
missing or not a string (the spec requires the lookup to tolerate a missing
or malformed sidecar by returning no value).  `mkdirFails`, `readFails` and
`writeFails` inject I/O errors: `readFails`/`writeFails` return the thrown
error's message. -/
structure SysCfg where
  isWindows : Bool
  psModulePath : Option JStr
  pwshEnv : Option JStr
  shellEnv : Option JStr
  profileEnv : Option JStr
  envZaiKey : Option JStr
  homedir : JStr
  settingsParse : JStr → Option JStr
  mkdirFails : JStr → Bool
  readFails : JStr → Option JStr
  writeFails : JStr → Option JStr

/-- JavaScript truthiness of a `string | null | undefined` value. -/
def truthy : Option JStr → Bool
  | none => false
  | some s => decide (s ≠ [])

/-- The `detectShell` (lines 38-58), as a function of the environment snapshot. -/
def detectShell (cfg : SysCfg) : ShellType :=
  if cfg.isWindows then
    if truthy cfg.psModulePath then
      if truthy cfg.pwshEnv then .powershellCore else .powershell
    else if truthy cfg.shellEnv && jsIncludes (cfg.shellEnv.getD []) (str "bash") then .bash
    else .unknown
  else
    let shell := cfg.shellEnv.getD []
    let name := basename shell
    if name = str "zsh" then .zsh
    else if name = str "bash" then .bash
    else .unknown

/-- The `resolveShellProfile` (lines 63-104). -/
def resolveShellProfile (cfg : SysCfg) (st : SysState) : Option JStr :=
  let home := cfg.homedir
  let shell := detectShell cfg
  if shell = .powershell ∨ shell = .powershellCore then
    match cfg.profileEnv with
    | some pe =>
        if pe ≠ [] ∧ existsSync st pe = true then some pe
        else
          let documentsPath := jsPathJoin home (str "Documents")
          let psPath := jsPathJoin documentsPath (str "WindowsPowerShell")
          let ps7Path := jsPathJoin documentsPath (str "PowerShell")
          if shell = .powershellCore then
            some (jsPathJoin ps7Path (str "Microsoft.PowerShell_profile.ps1"))
          else some (jsPathJoin psPath (str "Microsoft.PowerShell_profile.ps1"))
    | none =>
        let documentsPath := jsPathJoin home (str "Documents")
        let psPath := jsPathJoin documentsPath (str "WindowsPowerShell")
        let ps7Path := jsPathJoin documentsPath (str "PowerShell")
        if shell = .powershellCore then
          some (jsPathJoin ps7Path (str "Microsoft.PowerShell_profile.ps1"))
        else some (jsPathJoin psPath (str "Microsoft.PowerShell_profile.ps1"))
  else if shell = .bash then
    let bashrc := jsPathJoin home (str ".bashrc")
    if existsSync st bashrc then some bashrc
    else some (jsPathJoin home (str ".bash_profile"))
  else if shell = .zsh then some (jsPathJoin home (str ".zshrc"))
  else none

/-- The `readSettingsApiKey` (lines 125-132). -/
def readSettingsApiKey (cfg : SysCfg) (st : SysState) (configDir : JStr) : Option JStr :=
  let settingsPath := jsPathJoin configDir SETTINGS_FILE
  if existsSync st settingsPath = false then none
  else
    match cfg.settingsParse settingsPath with
    | none => none
    | some key => normalizeApiKey (some key)

/-- The options record of `ensureZaiShellEnv` (lines 228-232). -/
structure EnsureOpts where
  apiKey : Option JStr
  configDir : JStr
  profilePath : Option JStr

/-- Lines 266-287 of `ensureZaiShellEnv`, from the point where the existing
profile content has been read: the already-set check, the upsert, the
identity check, and the unguarded final `fs.writeFileSync` (whose injected
failure therefore propagates as `Except.error`). -/
def ensureCore (cfg : SysCfg) (st1 : SysState) (apiKey profile : JStr)
    (shell : ShellType) (existing : JStr) : Except JStr ShellEnvResult × SysState :=
  if hasZaiKeyInProfile existing shell then
    (Except.ok ⟨.skipped, some (str "Z_AI_API_KEY already set in shell profile"),
       some profile⟩, st1)
  else
    let block := renderBlock apiKey shell
    let next := upsertBlock existing block shell
    if next = existing then
      (Except.ok ⟨.skipped, some (str "Shell profile already up to date"), some profile⟩, st1)
    else
      match cfg.writeFails profile with
      | some err => (Except.error err, st1)
      | none =>
          let st2 : SysState := { st1 with files := setFile st1.files profile next }
          let reloadMessage :=
            if shell = .powershell ∨ shell = .powershellCore then str "Run: . $PROFILE"
            else str "Run: source " ++ profile
          (Except.ok ⟨.updated, some reloadMessage, some profile⟩, st2)

/-- The `ensureZaiShellEnv` (lines 228-287).  The nullish coalescing
`opts.profilePath ?? resolveShellProfile()` keeps an explicit empty string,
which the following falsy check `if (!profile)` then rejects; the ternary
`opts.profilePath ? detectShellFromPath(...) : detectShell()` tests
truthiness again.  `fs.mkdirSync` failure is swallowed by the source's
`try/catch`; `fs.readFileSync` failure is not caught and surfaces as
`Except.error`. -/
def ensureZaiShellEnv (opts : EnsureOpts) (cfg : SysCfg) (st : SysState) :
    Except JStr ShellEnvResult × SysState :=
  let apiKeyOpt :=
    match normalizeApiKey opts.apiKey with
    | some k => some k
    | none => readSettingsApiKey cfg st opts.configDir
  match apiKeyOpt with
  | none =>
      (Except.ok ⟨.skipped, some (str "Z_AI_API_KEY not set (missing API key)"), none⟩, st)
  | some apiKey =>
      match normalizeApiKey cfg.envZaiKey with
      | some _ =>
          (Except.ok ⟨.skipped, some (str "Z_AI_API_KEY already set in environment"), none⟩,
           st)
      | none =>
          let profileOpt :=
            match opts.profilePath with
            | some p => some p
            | none => resolveShellProfile cfg st
          let failMsg :=
            if cfg.isWindows then
              str "Unsupported shell; please use PowerShell or Git Bash. Set Z_AI_API_KEY manually in settings.json."
            else str "Unsupported shell; set Z_AI_API_KEY manually"
          match profileOpt with
          | none => (Except.ok ⟨.failed, some failMsg, none⟩, st)
          | some profile =>
              if profile = [] then (Except.ok ⟨.failed, some failMsg, none⟩, st)
              else
                let shell :=
                  match opts.profilePath with
                  | some p => if p ≠ [] then detectShellFromPath p else detectShell cfg
                  | none => detectShell cfg
                let profileDir := dirname profile
                let st1 : SysState :=
                  if cfg.mkdirFails profileDir then st
                  else { st with dirs := profileDir :: st.dirs }
                if existsSync st1 profile then
                  match cfg.readFails profile with
                  | some err => (Except.error err, st1)
                  | none =>
                      ensureCore cfg st1 apiKey profile shell
                        ((lookupFile st1.files profile).getD [])
                else ensureCore cfg st1 apiKey profile shell []

/-- The `true` exactly when no uncaught exception escaped. -/
def exceptOk : Except JStr ShellEnvResult → Bool
  | .ok _ => true
  | .error _ => false

-- ### Theory of `leadsWith` (JavaScript `startsWith`)

theorem lw_nil (l : JStr) : leadsWith [] l = true := rfl

theorem lw_iff (p l : JStr) : leadsWith p l = true ↔ ∃ t, l = p ++ t := by
  induction p generalizing l with
  | nil => simp [leadsWith]
  | cons a as ih =>
    cases l with
    | nil => simp [leadsWith]
    | cons b bs =>
      simp only [leadsWith, Bool.and_eq_true, beq_iff_eq, ih, List.cons_append,
        List.cons.injEq]
      constructor
      · rintro ⟨rfl, t, rfl⟩; exact ⟨t, rfl, rfl⟩
      · rintro ⟨t, rfl, rfl⟩; exact ⟨rfl, t, rfl⟩

theorem lw_self_append (p t : JStr) : leadsWith p (p ++ t) = true :=
  (lw_iff p (p ++ t)).mpr ⟨t, rfl⟩

theorem lw_length {p l : JStr} (h : leadsWith p l = true) : p.length ≤ l.length := by
  obtain ⟨t, rfl⟩ := (lw_iff p l).mp h
  simp

theorem lw_take {p l : JStr} (h : leadsWith p l = true) : l.take p.length = p := by
  obtain ⟨t, rfl⟩ := (lw_iff p l).mp h
  exact List.take_left p t

theorem lw_of_append_le {p a : JStr} (b : JStr) (h : leadsWith p (a ++ b) = true)
    (hle : p.length ≤ a.length) : leadsWith p a = true := by
  rw [lw_iff]
  refine ⟨a.drop p.length, ?_⟩
  have h1 : (a ++ b).take p.length = p := lw_take h
  have h2 : (a ++ b).take p.length = a.take p.length := by
    rw [List.take_append_eq_append_take, Nat.sub_eq_zero_of_le hle]
    simp
  rw [h2] at h1
  have h3 := List.take_append_drop p.length a
  rw [h1] at h3
  exact h3.symm

theorem lw_extend {p a : JStr} (b : JStr) (h : leadsWith p a = true) :
    leadsWith p (a ++ b) = true := by
  obtain ⟨t, rfl⟩ := (lw_iff p a).mp h
  rw [lw_iff]
  exact ⟨t ++ b, by simp⟩

theorem lw_head {p l : JStr} (hp : p ≠ []) (h : leadsWith p l = true) :
    l.head? = p.head? := by
  obtain ⟨t, rfl⟩ := (lw_iff p l).mp h
  cases p with
  | nil => exact absurd rfl hp
  | cons c cs => simp

-- ### Theory of `firstIdx` (the engine of `indexOf` / `includes`)

theorem fi_some {l pat : JStr} {n : Nat} (h : firstIdx l pat = some n) :
    leadsWith pat (l.drop n) = true ∧ ∀ j, j < n → leadsWith pat (l.drop j) = false := by
  induction l generalizing n with
  | nil =>
    unfold firstIdx at h
    split at h
    · cases h
      exact ⟨by assumption, fun j hj => absurd hj (Nat.not_lt_zero j)⟩
    · cases h
  | cons c t ih =>
    unfold firstIdx at h
    split at h
    · cases h
      exact ⟨by assumption, fun j hj => absurd hj (Nat.not_lt_zero j)⟩
    · rename_i hl
      cases hfi : firstIdx t pat with
      | none => rw [hfi] at h; cases h
      | some m =>
        rw [hfi] at h
        simp only [Option.map_some', Option.some.injEq] at h
        subst h
        obtain ⟨h1, h2⟩ := ih hfi
        refine ⟨h1, fun j hj => ?_⟩
        cases j with
        | zero => simpa using Bool.not_eq_true _ |>.mp hl
        | succ j' => exact h2 j' (by omega)

theorem fi_eq_some {l pat : JStr} {n : Nat} (h1 : leadsWith pat (l.drop n) = true)
    (h2 : ∀ j, j < n → leadsWith pat (l.drop j) = false) : firstIdx l pat = some n := by
  induction l generalizing n with
  | nil =>
    cases n with
    | zero => unfold firstIdx; simp only [List.drop_nil] at h1; simp [h1]
    | succ m =>
      exfalso
      have h0 := h2 0 (by omega)
      simp only [List.drop_nil] at h0 h1
      rw [h0] at h1
      cases h1
  | cons c t ih =>
    cases n with
    | zero =>
      unfold firstIdx
      simp only [List.drop_zero] at h1
      rw [if_pos h1]
    | succ m =>
      have h0 := h2 0 (by omega)
      simp only [List.drop_zero] at h0
      unfold firstIdx
      rw [if_neg (by simp [h0])]
      have := ih (n := m) h1 (fun j hj => h2 (j + 1) (by omega))
      rw [this]
      rfl

theorem fi_none {l pat : JStr} (h : firstIdx l pat = none) :
    ∀ j, leadsWith pat (l.drop j) = false := by
  induction l with
  | nil =>
    unfold firstIdx at h
    split at h
    · cases h
    · rename_i hl
      intro j
      simpa using Bool.not_eq_true _ |>.mp hl
  | cons c t ih =>
    unfold firstIdx at h
    split at h
    · cases h
    · rename_i hl
      intro j
      cases j with
      | zero => simpa using Bool.not_eq_true _ |>.mp hl
      | succ j' =>
        have : firstIdx t pat = none := by
          cases hfi : firstIdx t pat with
          | none => rfl
          | some m => rw [hfi] at h; cases h
        exact ih this j'

theorem jsIncludes_false_occ {l pat : JStr} (h : jsIncludes l pat = false) :
    ∀ j, leadsWith pat (l.drop j) = false := by
  unfold jsIncludes at h
  cases hfi : firstIdx l pat with
  | none => exact fi_none hfi
  | some m => rw [hfi] at h; cases h

theorem jsIncludes_of_occ {l pat : JStr} (j : Nat)
    (h : leadsWith pat (l.drop j) = true) : jsIncludes l pat = true := by
  cases hb : jsIncludes l pat with
  | true => rfl
  | false =>
    have := jsIncludes_false_occ hb j
    rw [h] at this
    cases this

theorem jsIncludes_ne_nil {l pat : JStr} (h : jsIncludes l pat = false) : pat ≠ [] := by
  intro hp
  subst hp
  have := jsIncludes_of_occ (l := l) 0 (lw_nil _)
  rw [this] at h
  cases h

-- ### Position lemmas for occurrences in concatenations

theorem jl_drop_append (a b : JStr) {j : Nat} (hj : j ≤ a.length) :
    (a ++ b).drop j = a.drop j ++ b := by
  rw [List.drop_append_eq_append_drop, Nat.sub_eq_zero_of_le hj, List.drop_zero]

theorem jl_take_append (a b : JStr) {j : Nat} (hj : j ≤ a.length) :
    (a ++ b).take j = a.take j := by
  rw [List.take_append_eq_append_take, Nat.sub_eq_zero_of_le hj]
  simp

theorem jl_drop_shift (a b : JStr) (k : Nat) :
    (a ++ b).drop (a.length + k) = b.drop k := by
  rw [← List.drop_drop, List.drop_left]

/-- An occurrence that straddles the `X`/`Y` boundary puts `Y`'s first
character inside the pattern. -/
theorem lw_span {pat X Y : JStr} {j : Nat}
    (h : leadsWith pat ((X ++ Y).drop j) = true)
    (h1 : j < X.length) (h2 : X.length < j + pat.length) :
    ∃ c, Y.head? = some c ∧ c ∈ pat := by
  rw [jl_drop_append X Y (le_of_lt h1)] at h
  have hlen : (X.drop j).length < pat.length := by
    rw [List.length_drop]; omega
  have hpat : pat = X.drop j ++ Y.take (pat.length - (X.drop j).length) := by
    have h3 := lw_take h
    rw [List.take_append_eq_append_take,
      List.take_of_length_le (le_of_lt hlen)] at h3
    exact h3.symm
  cases hY : Y with
  | nil =>
    exfalso
    subst hY
    simp only [List.take_nil, List.append_nil] at hpat
    rw [hpat] at hlen
    exact absurd hlen (by simp)
  | cons y ys =>
    refine ⟨y, rfl, ?_⟩
    rw [hpat]
    apply List.mem_append_right
    have hk : 1 ≤ pat.length - (X.drop j).length := by omega
    cases hkk : pat.length - (X.drop j).length with
    | zero => omega
    | succ k => rw [hY]; simp [List.take_succ_cons]

-- ### Theory of the JavaScript trim family

theorem jl_dropWhile_head_false {p : Char → Bool} {l r : JStr} {c : Char}
    (h : l.dropWhile p = c :: r) : p c = false := by
  induction l with
  | nil => cases h
  | cons a t ih =>
    rw [List.dropWhile_cons] at h
    split at h
    · exact ih h
    · rename_i hp
      injection h with h1 h2
      subst h1
      simpa using hp

theorem ts_cons_not_ws {c : Char} (r : JStr) (hc : isJsWs c = false) :
    jsTrimStart (c :: r) = c :: r := by
  unfold jsTrimStart
  rw [List.dropWhile_cons, if_neg (by simp [hc])]

theorem ts_cons_ws {c : Char} (r : JStr) (hc : isJsWs c = true) :
    jsTrimStart (c :: r) = jsTrimStart r := by
  unfold jsTrimStart
  rw [List.dropWhile_cons, if_pos hc]

theorem ts_shape (l : JStr) :
    jsTrimStart l = [] ∨ ∃ c r, jsTrimStart l = c :: r ∧ isJsWs c = false := by
  unfold jsTrimStart
  cases h : l.dropWhile isJsWs with
  | nil => exact Or.inl rfl
  | cons c r =>
    exact Or.inr ⟨c, r, rfl, jl_dropWhile_head_false h⟩

theorem te_append_ws {w : JStr} (a : JStr) (hw : ∀ c ∈ w, isJsWs c = true) :
    jsTrimEnd (a ++ w) = jsTrimEnd a := by
  unfold jsTrimEnd
  rw [List.reverse_append]
  have hnil : w.reverse.dropWhile isJsWs = [] :=
    List.dropWhile_eq_nil_iff.mpr (fun x hx => hw x (List.mem_reverse.mp hx))
  rw [List.dropWhile_append, hnil]
  simp

theorem te_append_keep {b : JStr} (a : JStr) (hb : jsTrimEnd b ≠ []) :
    jsTrimEnd (a ++ b) = a ++ jsTrimEnd b := by
  unfold jsTrimEnd at *
  rw [List.reverse_append, List.dropWhile_append]
  have hne : (b.reverse.dropWhile isJsWs).isEmpty = false := by
    cases h : b.reverse.dropWhile isJsWs with
    | nil => rw [h] at hb; simp at hb
    | cons c r => rfl
  rw [hne]
  simp [List.reverse_append]

theorem te_idem (l : JStr) : jsTrimEnd (jsTrimEnd l) = jsTrimEnd l := by
  unfold jsTrimEnd
  rw [List.reverse_reverse]
  cases h : l.reverse.dropWhile isJsWs with
  | nil => simp
  | cons c r =>
    have hc := jl_dropWhile_head_false h
    rw [List.dropWhile_cons, if_neg (by simp [hc])]

theorem te_exists_ws (l : JStr) :
    ∃ w, (∀ c ∈ w, isJsWs c = true) ∧ jsTrimEnd l ++ w = l := by
  refine ⟨(l.reverse.takeWhile isJsWs).reverse, ?_, ?_⟩
  · intro c hc
    exact List.mem_takeWhile_imp (List.mem_reverse.mp hc)
  · unfold jsTrimEnd
    rw [← List.reverse_append, List.takeWhile_append_dropWhile, List.reverse_reverse]

theorem te_shape (l : JStr) :
    jsTrimEnd l = [] ∨ ∃ x c, jsTrimEnd l = x ++ [c] ∧ isJsWs c = false := by
  unfold jsTrimEnd
  cases h : l.reverse.dropWhile isJsWs with
  | nil => exact Or.inl rfl
  | cons c r =>
    exact Or.inr ⟨r.reverse, c, by simp, jl_dropWhile_head_false h⟩

theorem te_cons_not_ws {c : Char} (r : JStr) (hc : isJsWs c = false) :
    jsTrimEnd (c :: r) = c :: jsTrimEnd r := by
  unfold jsTrimEnd
  rw [List.reverse_cons, List.dropWhile_append]
  by_cases hemp : (r.reverse.dropWhile isJsWs).isEmpty = true
  · rw [if_pos hemp]
    rw [List.isEmpty_iff] at hemp
    rw [hemp]
    simp [List.dropWhile_cons, hc]
  · rw [if_neg hemp]
    simp [List.reverse_append]

theorem te_single {d : Char} (hd : isJsWs d = false) : jsTrimEnd [d] = [d] := by
  unfold jsTrimEnd
  simp [List.dropWhile_cons, hd]

theorem jsTrim_id_of_ends {c d : Char} (m : JStr)
    (hc : isJsWs c = false) (hd : isJsWs d = false) :
    jsTrim (c :: (m ++ [d])) = c :: (m ++ [d]) := by
  unfold jsTrim
  have h1 : jsTrimEnd (c :: (m ++ [d])) = c :: (m ++ [d]) := by
    have h2 : jsTrimEnd ((c :: m) ++ [d]) = (c :: m) ++ jsTrimEnd [d] :=
      te_append_keep (c :: m) (by rw [te_single hd]; simp)
    rw [te_single hd] at h2
    simpa using h2
  rw [h1, ts_cons_not_ws _ hc]

-- ### Structure of the rendered block

/-- The single assignment line inside a rendered block. -/
def blockBody (apiKey : JStr) (shell : ShellType) : JStr :=
  if shell = .powershell ∨ shell = .powershellCore then
    str "$env:Z_AI_API_KEY=\"" ++ apiKey ++ str "\""
  else
    str "export Z_AI_API_KEY=\"" ++ apiKey ++ str "\""

theorem renderBlock_decomp (k : JStr) (s : ShellType) :
    renderBlock k s =
      BLOCK_START_UNIX ++ '\n' :: (blockBody k s ++ '\n' :: (BLOCK_END_UNIX ++ ['\n'])) := by
  have e1 : str "\n$env:Z_AI_API_KEY=\"" = '\n' :: str "$env:Z_AI_API_KEY=\"" := rfl
  have e2 : str "\nexport Z_AI_API_KEY=\"" = '\n' :: str "export Z_AI_API_KEY=\"" := rfl
  have e3 : str "\"\n" = ['"', '\n'] := rfl
  have e4 : str "\n" = ['\n'] := rfl
  have e5 : str "\"" = ['"'] := rfl
  have e6 : BLOCK_START_POWERSHELL = BLOCK_START_UNIX := rfl
  have e7 : BLOCK_END_POWERSHELL = BLOCK_END_UNIX := rfl
  unfold renderBlock blockBody
  split
  · rw [e1, e3, e4, e5, e6, e7]
    simp [List.append_assoc]
  · rw [e2, e3, e4, e5]
    simp [List.append_assoc]

theorem markers_eq (s : ShellType) :
    getBlockMarkers s = (BLOCK_START_UNIX, BLOCK_END_UNIX) := by
  cases s <;> rfl

theorem trimEnd_EU : jsTrimEnd BLOCK_END_UNIX = BLOCK_END_UNIX := by decide

theorem EU_ne_nil : BLOCK_END_UNIX ≠ [] := by decide

theorem renderBlock_trimEnd (k : JStr) (s : ShellType) :
    jsTrimEnd (renderBlock k s) =
      BLOCK_START_UNIX ++ '\n' :: (blockBody k s ++ '\n' :: BLOCK_END_UNIX) := by
  rw [renderBlock_decomp]
  have h1 : BLOCK_START_UNIX ++ '\n' :: (blockBody k s ++ '\n' :: (BLOCK_END_UNIX ++ ['\n']))
      = ((BLOCK_START_UNIX ++ '\n' :: (blockBody k s ++ ['\n'])) ++ BLOCK_END_UNIX) ++ ['\n'] := by
    simp [List.append_assoc]
  rw [h1, te_append_ws _ (by intro c hc; simp at hc; subst hc; decide),
    te_append_keep _ (by rw [trimEnd_EU]; exact EU_ne_nil), trimEnd_EU]
  simp [List.append_assoc]

theorem renderBlock_eq_trimEnd_newline (k : JStr) (s : ShellType) :
    renderBlock k s = jsTrimEnd (renderBlock k s) ++ ['\n'] := by
  rw [renderBlock_trimEnd, renderBlock_decomp]
  simp [List.append_assoc]

theorem blockBody_no_hash {k : JStr} (hk : '#' ∉ k) (s : ShellType) :
    '#' ∉ blockBody k s := by
  unfold blockBody
  split <;>
  · intro hmem
    rcases List.mem_append.mp hmem with h1 | h2
    · rcases List.mem_append.mp h1 with h3 | h4
      · exact absurd h3 (by decide)
      · exact hk h4
    · exact absurd h2 (by decide)

-- ### Locating the markers inside the canonical upserted shape

/-- First occurrence of a newline-free pattern `pat` in `P ++ "\n\n" ++ Q`
when `P` avoids `pat`, `Q` starts with it and `pat` does not start with a
newline: it sits right after the separator. -/
theorem fi_sep {P Q pat : JStr} (hP : jsIncludes P pat = false)
    (hQ : leadsWith pat Q = true) (hnl : '\n' ∉ pat)
    (hh : pat.head? ≠ some '\n') :
    firstIdx (P ++ '\n' :: '\n' :: Q) pat = some (P.length + 2) := by
  have hpatne : pat ≠ [] := jsIncludes_ne_nil hP
  apply fi_eq_some
  · have hdrop : (P ++ '\n' :: '\n' :: Q).drop (P.length + 2) = Q := jl_drop_shift P _ 2
    rw [hdrop]
    exact hQ
  · intro j hj
    cases hb : leadsWith pat ((P ++ '\n' :: '\n' :: Q).drop j) with
    | false => rfl
    | true =>
      exfalso
      rcases Nat.lt_or_ge (j + pat.length) (P.length + 1) with hc | hc
      · have hj' : j ≤ P.length := by omega
        rw [jl_drop_append _ _ hj'] at hb
        have h1 : leadsWith pat (P.drop j) = true :=
          lw_of_append_le _ hb (by rw [List.length_drop]; omega)
        have h2 : leadsWith pat (P.drop j) = false := jsIncludes_false_occ hP j
        rw [h1] at h2
        cases h2
      · rcases Nat.lt_or_ge j P.length with hj1 | hj1
        · obtain ⟨c, hc1, hc2⟩ := lw_span hb hj1 (by omega)
          simp only [List.head?_cons, Option.some.injEq] at hc1
          subst hc1
          exact hnl hc2
        · have hcase : j = P.length ∨ j = P.length + 1 := by omega
          rcases hcase with rfl | rfl
          · rw [List.drop_left] at hb
            have := lw_head hpatne hb
            simp only [List.head?_cons] at this
            exact hh this.symm
          · have hdrop : (P ++ '\n' :: '\n' :: Q).drop (P.length + 1) = '\n' :: Q :=
              jl_drop_shift P _ 1
            rw [hdrop] at hb
            have := lw_head hpatne hb
            simp only [List.head?_cons] at this
            exact hh this.symm

theorem SU_len : BLOCK_START_UNIX.length = 34 := rfl

theorem EU_len : BLOCK_END_UNIX.length = 32 := rfl

/-- In a rendered (and end-trimmed) block followed by anything, the first
occurrence of the end marker is the block's own end marker. -/
theorem fi_EU_block {body : JStr} (T : JStr) (hbody : '#' ∉ body) :
    firstIdx ((BLOCK_START_UNIX ++ '\n' :: (body ++ '\n' :: BLOCK_END_UNIX)) ++ T)
      BLOCK_END_UNIX = some (36 + body.length) := by
  have heq : (BLOCK_START_UNIX ++ '\n' :: (body ++ '\n' :: BLOCK_END_UNIX)) ++ T
      = (BLOCK_START_UNIX ++ '\n' :: (body ++ ['\n'])) ++ (BLOCK_END_UNIX ++ T) := by
    simp [List.append_assoc]
  have hXlen : (BLOCK_START_UNIX ++ '\n' :: (body ++ ['\n'])).length = 36 + body.length := by
    simp [SU_len]
    omega
  rw [heq]
  apply fi_eq_some
  · rw [← hXlen, List.drop_left]
    exact lw_self_append _ _
  · intro j hj
    cases hb : leadsWith BLOCK_END_UNIX
        (((BLOCK_START_UNIX ++ '\n' :: (body ++ ['\n'])) ++ (BLOCK_END_UNIX ++ T)).drop j) with
    | false => rfl
    | true =>
      exfalso
      have hjX : j < (BLOCK_START_UNIX ++ '\n' :: (body ++ ['\n'])).length := by omega
      have hhead : ((BLOCK_START_UNIX ++ '\n' :: (body ++ ['\n'])) ++
          (BLOCK_END_UNIX ++ T))[j]? = some '#' := by
        rw [← List.head?_drop]
        rw [lw_head (by decide : BLOCK_END_UNIX ≠ []) hb]
        rfl
      rw [List.getElem?_append_left hjX] at hhead
      rcases Nat.lt_or_ge j 34 with hj34 | hj34
      · have hSU : BLOCK_START_UNIX[j]? = some '#' := by
          rwa [List.getElem?_append_left (by rw [SU_len]; exact hj34)] at hhead
        have hj0 : j = 0 := by
          interval_cases j
          · rfl
          all_goals exact absurd hSU (by decide)
        subst hj0
        rw [List.drop_zero] at hb
        have hSUlw : leadsWith BLOCK_END_UNIX BLOCK_START_UNIX = true := by
          have h1 : BLOCK_START_UNIX ++ '\n' :: (body ++ ['\n']) ++ (BLOCK_END_UNIX ++ T)
              = BLOCK_START_UNIX ++ ('\n' :: (body ++ ['\n']) ++ (BLOCK_END_UNIX ++ T)) := by
            simp [List.append_assoc]
          rw [List.append_assoc] at hb
          exact lw_of_append_le _ hb (by rw [SU_len, EU_len]; omega)
        exact absurd hSUlw (by decide)
      · have h2 : ('\n' :: (body ++ ['\n']))[j - 34]? = some '#' := by
          rwa [List.getElem?_append_right (by rw [SU_len]; exact hj34)] at hhead
        have h3 : '#' ∈ '\n' :: (body ++ ['\n']) := List.getElem?_mem h2
        rcases List.mem_cons.mp h3 with h | h
        · exact absurd h (by decide)
        · rcases List.mem_append.mp h with h | h
          · exact hbody h
          · exact absurd h (by decide)

-- ### Slice helpers

theorem jsSlice_zero_take (l : JStr) {n : Nat} (hn : n ≤ l.length) :
    jsSlice l 0 (n : Int) = l.take n := by
  simp only [jsSlice]
  have h1 : ¬ ((0:Int) < 0) := by omega
  have h2 : ¬ ((n:Int) < 0) := by omega
  rw [if_neg h1, if_neg h2]
  have h3 : min ((n:Int)) ((l.length : Int)) = (n:Int) := by omega
  have h4 : min ((0:Int)) ((l.length : Int)) = 0 := by omega
  rw [h3, h4]
  simp [Int.toNat_natCast]

theorem jsSliceFrom_drop (l : JStr) (n : Nat) : jsSliceFrom l (n : Int) = l.drop n := by
  simp only [jsSliceFrom, jsSlice]
  have h1 : ¬ ((n:Int) < 0) := by omega
  have h2 : ¬ ((l.length:Int) < 0) := by omega
  rw [if_neg h1, if_neg h2]
  have h3 : min ((l.length:Int)) ((l.length:Int)) = (l.length:Int) := by omega
  rw [h3]
  have h4 : (min ((n:Int)) ((l.length:Int))).toNat = min n l.length := by omega
  have h5 : ((l.length:Int)).toNat = l.length := by omega
  rw [h4, h5, List.take_length]
  rcases Nat.le_total n l.length with h | h
  · rw [Nat.min_eq_left h]
  · rw [Nat.min_eq_right h, List.drop_eq_nil_of_le h, List.drop_eq_nil_of_le (le_refl _)]

theorem jl_take_sep (P Q : JStr) :
    (P ++ '\n' :: '\n' :: Q).take (P.length + 2) = P ++ ['\n', '\n'] := by
  rw [List.take_append_eq_append_take, List.take_of_length_le (by omega)]
  congr 1
  have h : P.length + 2 - P.length = 2 := by omega
  rw [h]
  rfl

-- ### Occurrence-lifting helpers

theorem jsIncludes_true_occ {l pat : JStr} (h : jsIncludes l pat = true) :
    ∃ j, leadsWith pat (l.drop j) = true := by
  unfold jsIncludes at h
  cases hfi : firstIdx l pat with
  | none => rw [hfi] at h; cases h
  | some m => exact ⟨m, (fi_some hfi).1⟩

theorem lw_drop_extend {pat q : JStr} (rest : JStr) {j : Nat}
    (h : leadsWith pat (q.drop j) = true) :
    leadsWith pat ((q ++ rest).drop j) = true := by
  rcases Nat.le_total j q.length with hj | hj
  · rw [jl_drop_append _ _ hj]
    exact lw_extend _ h
  · rw [List.drop_eq_nil_of_le hj] at h
    have hpat : pat = [] := by
      cases pat with
      | nil => rfl
      | cons a as => simp [leadsWith] at h
    subst hpat
    exact lw_nil _

theorem jsIncludes_false_of_append {q rest pat : JStr}
    (h : jsIncludes (q ++ rest) pat = false) : jsIncludes q pat = false := by
  cases hb : jsIncludes q pat with
  | false => rfl
  | true =>
    obtain ⟨j, hj⟩ := jsIncludes_true_occ hb
    have h2 := jsIncludes_of_occ j (lw_drop_extend rest hj)
    rw [h2] at h
    cases h

theorem te_length_le (l : JStr) : (jsTrimEnd l).length ≤ l.length := by
  obtain ⟨w, _, hw⟩ := te_exists_ws l
  have := congrArg List.length hw
  simp only [List.length_append] at this
  omega

-- ### The canonical upserted shape is a fixed point of `upsertBlock`

/-- Any string of the form `P ++ "\n\n" ++ trimEnd(block) ++ T` — the shape
`upsertBlock` produces — is left unchanged by a further upsert of the same
rendered block, provided `P` carries no start marker and no trailing
whitespace, and `T` is either a lone newline or `"\n\n" ++ A ++ "\n"` for a
trailing-whitespace-free `A` starting with a non-whitespace character. -/
theorem upsert_fixed {k : JStr} (hk : '#' ∉ k) (s : ShellType) {P T : JStr}
    (hP1 : jsTrimEnd P = P) (hP2 : jsIncludes P BLOCK_START_UNIX = false)
    (hT : T = ['\n'] ∨
      ∃ c r, isJsWs c = false ∧ jsTrimEnd (c :: r) = c :: r ∧
        T = '\n' :: '\n' :: ((c :: r) ++ ['\n'])) :
    upsertBlock (P ++ '\n' :: '\n' :: (jsTrimEnd (renderBlock k s) ++ T))
        (renderBlock k s) s
      = P ++ '\n' :: '\n' :: (jsTrimEnd (renderBlock k s) ++ T) := by
  have hbody := blockBody_no_hash hk s
  have hBt := renderBlock_trimEnd k s
  have hQlw : leadsWith BLOCK_START_UNIX (jsTrimEnd (renderBlock k s) ++ T) = true := by
    rw [hBt, List.append_assoc]
    exact lw_self_append _ _
  have hfiS : firstIdx (P ++ '\n' :: '\n' :: (jsTrimEnd (renderBlock k s) ++ T))
      BLOCK_START_UNIX = some (P.length + 2) :=
    fi_sep hP2 hQlw (by decide) (by decide)
  have hdropP : (P ++ '\n' :: '\n' :: (jsTrimEnd (renderBlock k s) ++ T)).drop (P.length + 2)
      = jsTrimEnd (renderBlock k s) ++ T := jl_drop_shift P _ 2
  have hfiE' : firstIdx (jsTrimEnd (renderBlock k s) ++ T) BLOCK_END_UNIX
      = some (36 + (blockBody k s).length) := by
    rw [hBt]
    exact fi_EU_block T hbody
  have hincS : jsIncludes (P ++ '\n' :: '\n' :: (jsTrimEnd (renderBlock k s) ++ T))
      BLOCK_START_UNIX = true := by
    unfold jsIncludes
    rw [hfiS]
    rfl
  have hincE : jsIncludes (P ++ '\n' :: '\n' :: (jsTrimEnd (renderBlock k s) ++ T))
      BLOCK_END_UNIX = true := by
    apply jsIncludes_of_occ (P.length + 2 + (36 + (blockBody k s).length))
    rw [← List.drop_drop, hdropP]
    exact (fi_some hfiE').1
  have hIdx : jsIndexOf (P ++ '\n' :: '\n' :: (jsTrimEnd (renderBlock k s) ++ T))
      BLOCK_START_UNIX = ((P.length + 2 : Nat) : Int) := by
    unfold jsIndexOf
    rw [hfiS]
  have hIdxE : jsIndexOfFrom (P ++ '\n' :: '\n' :: (jsTrimEnd (renderBlock k s) ++ T))
      BLOCK_END_UNIX ((P.length + 2 : Nat) : Int)
      = ((P.length + 2 + (36 + (blockBody k s).length) : Nat) : Int) := by
    unfold jsIndexOfFrom
    rw [Int.toNat_natCast, hdropP, hfiE']
    push_cast
    ring
  have hBtlen : (jsTrimEnd (renderBlock k s)).length = 68 + (blockBody k s).length := by
    rw [hBt]
    simp [SU_len, EU_len]
    omega
  have hslice : jsSlice (P ++ '\n' :: '\n' :: (jsTrimEnd (renderBlock k s) ++ T)) 0
      ((P.length + 2 : Nat) : Int) = P ++ ['\n', '\n'] := by
    rw [jsSlice_zero_take _ (by simp), jl_take_sep]
  have hbefore : jsTrimEnd (P ++ ['\n', '\n']) = P := by
    rw [te_append_ws P (by decide)]
    exact hP1
  have hcast : ((P.length + 2 + (36 + (blockBody k s).length) : Nat) : Int)
      + ((BLOCK_END_UNIX.length : Nat) : Int)
      = ((P.length + 2 + (68 + (blockBody k s).length) : Nat) : Int) := by
    rw [EU_len]
    push_cast
    ring
  have hAfterSlice : jsSliceFrom (P ++ '\n' :: '\n' :: (jsTrimEnd (renderBlock k s) ++ T))
      ((P.length + 2 + (68 + (blockBody k s).length) : Nat) : Int) = T := by
    rw [jsSliceFrom_drop, ← List.drop_drop, hdropP, ← hBtlen, List.drop_left]
  simp only [upsertBlock, markers_eq]
  rw [if_pos ⟨hincS, hincE⟩, hIdx, hIdxE, hslice, hbefore, hcast, hAfterSlice]
  have hBsp := renderBlock_eq_trimEnd_newline k s
  rcases hT with rfl | ⟨c, r, hc, hcr, rfl⟩
  · have hts : jsTrimStart ['\n'] = [] := by decide
    rw [hts]
    have hgroup : P ++ str "\n\n" ++ renderBlock k s ++ str "\n" ++ []
        = ((P ++ ['\n', '\n']) ++ jsTrimEnd (renderBlock k s)) ++ ['\n', '\n'] := by
      conv_lhs => rw [hBsp]
      simp [List.append_assoc, str]
    rw [hgroup, te_append_ws _ (by decide),
      te_append_keep _ (by rw [te_idem]; rw [hBt]; simp [BLOCK_START_UNIX, str]),
      te_idem]
    simp [List.append_assoc, str]
  · have hts : jsTrimStart ('\n' :: '\n' :: ((c :: r) ++ ['\n'])) = (c :: r) ++ ['\n'] := by
      rw [ts_cons_ws _ (by decide), ts_cons_ws _ (by decide), List.cons_append,
        ts_cons_not_ws _ hc]
    rw [hts]
    have hgroup : P ++ str "\n\n" ++ renderBlock k s ++ str "\n" ++ ((c :: r) ++ ['\n'])
        = (((P ++ ['\n', '\n'] ++ jsTrimEnd (renderBlock k s) ++ ['\n', '\n'])) ++ (c :: r))
          ++ ['\n'] := by
      conv_lhs => rw [hBsp]
      simp [List.append_assoc, str]
    rw [hgroup, te_append_ws _ (by decide),
      te_append_keep _ (by rw [hcr]; exact List.cons_ne_nil c r), hcr]
    simp [List.append_assoc, str]

/-- One upsert brings any content whose markers are not in the broken
"start without end" configuration into the canonical shape of
`upsert_fixed`. -/
theorem upsert_shape (k : JStr) (s : ShellType) (C : JStr)
    (himp : jsIncludes C BLOCK_START_UNIX = true → jsIncludes C BLOCK_END_UNIX = true) :
    ∃ P T, jsTrimEnd P = P ∧ jsIncludes P BLOCK_START_UNIX = false ∧
      (T = ['\n'] ∨ ∃ c r, isJsWs c = false ∧ jsTrimEnd (c :: r) = c :: r ∧
        T = '\n' :: '\n' :: ((c :: r) ++ ['\n'])) ∧
      upsertBlock C (renderBlock k s) s
        = P ++ '\n' :: '\n' :: (jsTrimEnd (renderBlock k s) ++ T) := by
  have hBt := renderBlock_trimEnd k s
  have hBsp := renderBlock_eq_trimEnd_newline k s
  have hBtne : jsTrimEnd (renderBlock k s) ≠ [] := by
    rw [hBt]
    simp
  have hBtte : jsTrimEnd (jsTrimEnd (renderBlock k s)) ≠ [] := by
    rw [te_idem]
    exact hBtne
  by_cases hC : jsIncludes C BLOCK_START_UNIX = true ∧ jsIncludes C BLOCK_END_UNIX = true
  · obtain ⟨hCS, hCE⟩ := hC
    obtain ⟨n, hfi⟩ : ∃ n, firstIdx C BLOCK_START_UNIX = some n := by
      cases h : firstIdx C BLOCK_START_UNIX with
      | none => simp [jsIncludes, h] at hCS
      | some n => exact ⟨n, rfl⟩
    have hocc := fi_some hfi
    have hn : n + 34 ≤ C.length := by
      have := lw_length hocc.1
      rw [SU_len, List.length_drop] at this
      omega
    have hIdxC : jsIndexOf C BLOCK_START_UNIX = ((n : Nat) : Int) := by
      unfold jsIndexOf
      rw [hfi]
    have hsliceC : jsSlice C 0 ((n : Nat) : Int) = C.take n :=
      jsSlice_zero_take _ (by omega)
    have hP2 : jsIncludes (jsTrimEnd (C.take n)) BLOCK_START_UNIX = false := by
      cases hb : jsIncludes (jsTrimEnd (C.take n)) BLOCK_START_UNIX with
      | false => rfl
      | true =>
        exfalso
        obtain ⟨j, hj⟩ := jsIncludes_true_occ hb
        have hjb : j + 34 ≤ (jsTrimEnd (C.take n)).length := by
          have := lw_length hj
          rw [SU_len, List.length_drop] at this
          omega
        obtain ⟨w, _, hw⟩ := te_exists_ws (C.take n)
        have hCeq : jsTrimEnd (C.take n) ++ (w ++ C.drop n) = C := by
          rw [← List.append_assoc, hw, List.take_append_drop]
        have hj2 : leadsWith BLOCK_START_UNIX (C.drop j) = true := by
          rw [← hCeq]
          exact lw_drop_extend _ hj
        have hjn : j < n := by
          have h3 : (jsTrimEnd (C.take n)).length ≤ (C.take n).length := te_length_le _
          have h4 : (C.take n).length ≤ n := by
            rw [List.length_take]
            omega
          omega
        have h5 := hocc.2 j hjn
        rw [hj2] at h5
        cases h5
    obtain ⟨m, hm⟩ : ∃ m : Nat,
        jsSliceFrom C (jsIndexOfFrom C BLOCK_END_UNIX ((n : Nat) : Int)
          + ((BLOCK_END_UNIX.length : Nat) : Int)) = C.drop m := by
      cases h : firstIdx (C.drop n) BLOCK_END_UNIX with
      | none =>
        refine ⟨31, ?_⟩
        have h1 : jsIndexOfFrom C BLOCK_END_UNIX ((n : Nat) : Int) = -1 := by
          unfold jsIndexOfFrom
          rw [Int.toNat_natCast, h]
        rw [h1, EU_len]
        have h2 : (-1 + ((32 : Nat) : Int)) = ((31 : Nat) : Int) := by decide
        rw [h2, jsSliceFrom_drop]
      | some q =>
        refine ⟨n + q + 32, ?_⟩
        have h1 : jsIndexOfFrom C BLOCK_END_UNIX ((n : Nat) : Int)
            = ((n + q : Nat) : Int) := by
          unfold jsIndexOfFrom
          rw [Int.toNat_natCast, h]
          show ((n : Int) + (q : Int)) = ((n + q : Nat) : Int)
          push_cast
          ring
        rw [h1, EU_len]
        have h2 : (((n + q : Nat) : Int) + ((32 : Nat) : Int))
            = ((n + q + 32 : Nat) : Int) := by
          push_cast
          ring
        rw [h2, jsSliceFrom_drop]
    have hD1 : upsertBlock C (renderBlock k s) s
        = jsTrimEnd (jsTrimEnd (C.take n) ++ str "\n\n" ++ renderBlock k s ++ str "\n"
            ++ jsTrimStart (C.drop m)) ++ str "\n" := by
      simp only [upsertBlock, markers_eq]
      rw [if_pos ⟨hCS, hCE⟩, hIdxC, hsliceC, hm]
    rcases ts_shape (C.drop m) with hafter | ⟨c, rst, hafter, hc⟩
    · refine ⟨jsTrimEnd (C.take n), ['\n'], te_idem _, hP2, Or.inl rfl, ?_⟩
      rw [hD1, hafter]
      have hgroup : jsTrimEnd (C.take n) ++ str "\n\n" ++ renderBlock k s ++ str "\n" ++ []
          = ((jsTrimEnd (C.take n) ++ ['\n', '\n']) ++ jsTrimEnd (renderBlock k s))
            ++ ['\n', '\n'] := by
        conv_lhs => rw [hBsp]
        simp [List.append_assoc, str]
      rw [hgroup, te_append_ws _ (by decide), te_append_keep _ hBtte, te_idem]
      simp [List.append_assoc, str]
    · refine ⟨jsTrimEnd (C.take n), '\n' :: '\n' :: ((c :: jsTrimEnd rst) ++ ['\n']),
        te_idem _, hP2,
        Or.inr ⟨c, jsTrimEnd rst, hc, by rw [te_cons_not_ws _ hc, te_idem], rfl⟩, ?_⟩
      rw [hD1, hafter]
      have hgroup : jsTrimEnd (C.take n) ++ str "\n\n" ++ renderBlock k s ++ str "\n"
            ++ (c :: rst)
          = ((jsTrimEnd (C.take n) ++ ['\n', '\n'] ++ jsTrimEnd (renderBlock k s)
              ++ ['\n', '\n'])) ++ (c :: rst) := by
        conv_lhs => rw [hBsp]
        simp [List.append_assoc, str]
      rw [hgroup, te_append_keep _ (by rw [te_cons_not_ws _ hc]; exact List.cons_ne_nil _ _),
        te_cons_not_ws _ hc]
      simp [List.append_assoc, str]
  · have hns : jsIncludes C BLOCK_START_UNIX = false := by
      cases hb : jsIncludes C BLOCK_START_UNIX with
      | false => rfl
      | true => exact absurd ⟨hb, himp hb⟩ hC
    have hP2 : jsIncludes (jsTrimEnd C) BLOCK_START_UNIX = false := by
      obtain ⟨w, _, hw⟩ := te_exists_ws C
      have h2 := hns
      rw [← hw] at h2
      exact jsIncludes_false_of_append h2
    refine ⟨jsTrimEnd C, ['\n'], te_idem _, hP2, Or.inl rfl, ?_⟩
    have hD1 : upsertBlock C (renderBlock k s) s
        = jsTrimEnd (jsTrimEnd C ++ str "\n\n" ++ renderBlock k s) ++ str "\n" := by
      simp only [upsertBlock, markers_eq]
      rw [if_neg (by simp [hns])]
    rw [hD1]
    have hgroup : jsTrimEnd C ++ str "\n\n" ++ renderBlock k s
        = ((jsTrimEnd C ++ ['\n', '\n']) ++ jsTrimEnd (renderBlock k s)) ++ ['\n'] := by
      conv_lhs => rw [hBsp]
      simp [List.append_assoc, str]
    rw [hgroup, te_append_ws _ (by decide), te_append_keep _ hBtte, te_idem]
    simp [List.append_assoc, str]

/-- Idempotence of `upsertBlock` on rendered blocks, for contents that do
not contain the start marker without the end marker. -/
theorem upsert_idem_aux {k : JStr} (hk : '#' ∉ k) (s : ShellType) (C : JStr)
    (himp : jsIncludes C BLOCK_START_UNIX = true → jsIncludes C BLOCK_END_UNIX = true) :
    upsertBlock (upsertBlock C (renderBlock k s) s) (renderBlock k s) s
      = upsertBlock C (renderBlock k s) s := by
  obtain ⟨P, T, hP1, hP2, hTs, hD1⟩ := upsert_shape k s C himp
  rw [hD1]
  exact upsert_fixed hk s hP1 hP2 hTs

-- Sanity examples mirroring the repository's own unit tests.

example : parseQuotedValue (str "\"test-key\"") = some (str "test-key") := by decide

example : parseQuotedValue (str "'test-key'") = some (str "test-key") := by decide

example : parseQuotedValue (str "test-key") = some (str "test-key") := by decide

example : parseQuotedValue (str "") = none := by decide

example : parseQuotedValue (str "\"") = none := by decide

example : parseQuotedValue (str "\"test\\\"key\\\"test\"") = some (str "test\"key\"test") := by
  decide

example : hasZaiKeyInProfile (str "export Z_AI_API_KEY=\"existing-key\"\n") .zsh = true := by
  decide

example : hasZaiKeyInProfile (str "# export Z_AI_API_KEY=\"x\"\n") .zsh = false := by decide

example : detectShellFromPath (str "/home/u/.zshrc") = .zsh := by decide

-- ### Helpers for `parseQuotedValue`

theorem replaceGo_no_first {b c : Char} (rep : JStr) :
    ∀ (fuel : Nat) (V : JStr), b ∉ V → replaceGo [b, c] rep fuel V = V := by
  intro fuel
  induction fuel with
  | zero =>
    intro V _
    cases V <;> rfl
  | succ f ih =>
    intro V hV
    cases V with
    | nil => rfl
    | cons v t =>
      have hv : (b == v) = false := by
        rw [beq_eq_false_iff_ne]
        intro h
        exact hV (h ▸ List.mem_cons_self b t)
      have hlw : leadsWith [b, c] (v :: t) = false := by
        show (b == v && leadsWith [c] t) = false
        rw [hv, Bool.false_and]
      show replaceGo [b, c] rep (f + 1) (v :: t) = v :: t
      rw [replaceGo, if_neg (by simp [hlw])]
      have ht : b ∉ t := fun hmem => hV (List.mem_cons_of_mem v hmem)
      rw [ih t ht]

theorem replaceAll_no_first {b c : Char} {V : JStr} (rep : JStr) (h : b ∉ V) :
    replaceAll V [b, c] rep = V :=
  replaceGo_no_first rep V.length V h

theorem jsSlice_one_negone (c d : Char) (V : JStr) :
    jsSlice (c :: (V ++ [d])) 1 (-1) = V := by
  simp only [jsSlice]
  have h1 : ¬ ((1:Int) < 0) := by omega
  have h2 : ((-1:Int) < 0) := by omega
  rw [if_neg h1, if_pos h2]
  have hl : (c :: (V ++ [d])).length = V.length + 2 := by simp
  rw [hl]
  have h3 : max (((V.length + 2 : Nat) : Int) + -1) 0 = ((V.length + 1 : Nat) : Int) := by
    push_cast
    omega
  have h4 : min (1:Int) ((V.length + 2 : Nat) : Int) = 1 := by
    push_cast
    omega
  rw [h3, h4, Int.toNat_natCast]
  have h5 : ((1:Int)).toNat = 1 := rfl
  rw [h5, List.take_succ_cons, List.take_left]
  simp

-- ### Claims

set_option maxRecDepth 40000 in
/-- C1 (corrected), counterexample: `upsertBlock` is not idempotent on a
content that contains the start marker but not the end marker — the second
application discards the stray marker region. -/
theorem c1_counterexample :
    upsertBlock (upsertBlock BLOCK_START_UNIX (renderBlock (str "k") .zsh) .zsh)
        (renderBlock (str "k") .zsh) .zsh
      ≠ upsertBlock BLOCK_START_UNIX (renderBlock (str "k") .zsh) .zsh := by decide

/-- C1 (amended): for every content `C`, every shell dialect and every api
key without a `'#'` character, applying `upsertBlock` twice with the
rendered block equals applying it once, provided `C` does not contain the
engine's start marker without also containing its end marker. -/
theorem c1_upsert_idempotent (k : JStr) (hk : '#' ∉ k) (s : ShellType) (C : JStr)
    (h : jsIncludes C BLOCK_START_UNIX = true → jsIncludes C BLOCK_END_UNIX = true) :
    upsertBlock (upsertBlock C (renderBlock k s) s) (renderBlock k s) s
      = upsertBlock C (renderBlock k s) s :=
  upsert_idem_aux hk s C h

/-- Witness for C1: a concrete marker-free content and key. -/
theorem c1_witness :
    upsertBlock (upsertBlock (str "export FOO=1") (renderBlock (str "abc123") .zsh) .zsh)
        (renderBlock (str "abc123") .zsh) .zsh
      = upsertBlock (str "export FOO=1") (renderBlock (str "abc123") .zsh) .zsh :=
  c1_upsert_idempotent (str "abc123") (by decide) .zsh (str "export FOO=1") (by decide)

theorem upsert_out_shape (content block : JStr) (shell : ShellType) :
    upsertBlock content block shell ≠ [] ∧
    ∃ x, upsertBlock content block shell = x ++ ['\n'] ∧ jsTrimEnd x = x := by
  have key : ∀ z : JStr, jsTrimEnd z ++ str "\n" ≠ [] ∧
      ∃ x, jsTrimEnd z ++ str "\n" = x ++ ['\n'] ∧ jsTrimEnd x = x := by
    intro z
    have e : str "\n" = ['\n'] := rfl
    rw [e]
    exact ⟨by simp, jsTrimEnd z, rfl, te_idem z⟩
  simp only [upsertBlock, markers_eq]
  split
  · exact key _
  · exact key _

/-- C9: for every content, block and dialect, the output of `upsertBlock`
is non-empty, its last character is a newline, and the character before
that newline (when there is one) is not whitespace — in particular the
output ends with exactly one newline and has no other trailing whitespace. -/
theorem c9_upsert_trailing_newline (content block : JStr) (shell : ShellType) :
    upsertBlock content block shell ≠ [] ∧
    ∃ x, upsertBlock content block shell = x ++ ['\n'] ∧ jsTrimEnd x = x :=
  upsert_out_shape content block shell

/-- C3 (code bug): `hasZaiKeyInProfile` only checks that the stripped line
starts with `Z_AI_API_KEY` and then looks for any later `=`, so the line
`export Z_AI_API_KEY_BACKUP="v"` — an assignment to a longer, different
variable — is reported as an effective assignment of `Z_AI_API_KEY`. -/
theorem c3_longer_name_reported :
    hasZaiKeyInProfile (str "export Z_AI_API_KEY_BACKUP=\"v\"") .zsh = true := by decide

/-- C4 (corrected), counterexample: `parseQuotedValue` does not return
single-character bare tokens: `parse("a")` is `null`, not `"a"`. -/
theorem c4_counterexample : ¬ (parseQuotedValue (str "a") = some (str "a")) := by decide

/-- C4 (amended): `parseQuotedValue` trims surrounding whitespace and
returns null for every token shorter than 2 characters after trimming,
including single-character bare tokens. -/
theorem c4_short_token_null (v : JStr) (h : (jsTrim v).length < 2) :
    parseQuotedValue v = none := by
  unfold parseQuotedValue
  rw [if_pos h]

/-- Witness for C4 at the single-character token `"a"`. -/
theorem c4_witness : (jsTrim (str "a")).length < 2 ∧ parseQuotedValue (str "a") = none :=
  ⟨by decide, c4_short_token_null (str "a") (by decide)⟩

/-- C7: for every string `V` with no double quotes and no backslashes,
parsing the double-quoted rendering `'"' + V + '"'` returns exactly `V`. -/
theorem c7_roundtrip (V : JStr) (h1 : '"' ∉ V) (h2 : '\\' ∉ V) :
    parseQuotedValue ('"' :: (V ++ ['"'])) = some V := by
  have htrim : jsTrim ('"' :: (V ++ ['"'])) = '"' :: (V ++ ['"']) :=
    jsTrim_id_of_ends V (by decide) (by decide)
  unfold parseQuotedValue
  rw [htrim]
  have hlen : ¬ (('"' :: (V ++ ['"'])).length < 2) := by simp
  rw [if_neg hlen]
  have hhead : ('"' :: (V ++ ['"'])).headD ' ' = '"' := rfl
  have hlast : ('"' :: (V ++ ['"'])).getLastD ' ' = '"' := by
    have h3 : '"' :: (V ++ ['"']) = ('"' :: V) ++ ['"'] := by simp
    rw [h3, List.getLastD_concat]
  rw [hhead, hlast]
  rw [if_pos (Or.inl ⟨rfl, rfl⟩), jsSlice_one_negone]
  show some (replaceAll V ['\\', '"'] ['"']) = some V
  rw [replaceAll_no_first _ h2]

/-- Witness for C7 at `V = "abc"`. -/
theorem c7_witness : parseQuotedValue ('"' :: (str "abc" ++ ['"'])) = some (str "abc") :=
  c7_roundtrip (str "abc") (by decide) (by decide)

-- ### Helpers for the orchestrator claims

theorem existsSync_false_lookup {st : SysState} {p : JStr}
    (h : existsSync st p = false) : lookupFile st.files p = none := by
  unfold existsSync at h
  cases hl : lookupFile st.files p with
  | none => rfl
  | some c => rw [hl] at h; cases h

/-- The tail of `ensureZaiShellEnv` (read step plus `ensureCore`) returns
the "already set in shell profile" skip when the scanner fires on the
existing content, leaving the file table untouched. -/
theorem ensure_read_skip (cfg : SysCfg) (st1 : SysState) (apiKey p : JStr)
    (shell : ShellType) (h5 : cfg.readFails p = none)
    (h6 : hasZaiKeyInProfile ((lookupFile st1.files p).getD []) shell = true) :
    (if existsSync st1 p then
       match cfg.readFails p with
       | some err => (Except.error err, st1)
       | none => ensureCore cfg st1 apiKey p shell ((lookupFile st1.files p).getD [])
     else ensureCore cfg st1 apiKey p shell [])
      = (Except.ok ⟨.skipped, some (str "Z_AI_API_KEY already set in shell profile"),
          some p⟩, st1) := by
  by_cases hex : existsSync st1 p = true
  · rw [if_pos hex, h5]
    unfold ensureCore
    rw [if_pos h6]
  · rw [if_neg (by simp [Bool.not_eq_true] at hex ⊢; exact hex)]
    have hlk : lookupFile st1.files p = none :=
      existsSync_false_lookup (Bool.not_eq_true _ |>.mp hex)
    rw [hlk] at h6
    simp only [Option.getD_none] at h6
    unfold ensureCore
    rw [if_pos h6]

/-- C5: when neither the explicit request value nor the settings lookup
yields an effective (non-empty, non-placeholder) key, `ensureZaiShellEnv`
returns `skipped` with the "missing API key" message and leaves the world
state — files and directories — completely unchanged. -/
theorem c5_missing_key_skipped (opts : EnsureOpts) (cfg : SysCfg) (st : SysState)
    (h1 : normalizeApiKey opts.apiKey = none)
    (h2 : readSettingsApiKey cfg st opts.configDir = none) :
    ensureZaiShellEnv opts cfg st
      = (Except.ok ⟨.skipped, some (str "Z_AI_API_KEY not set (missing API key)"), none⟩,
          st) := by
  unfold ensureZaiShellEnv
  rw [h1, h2]

/-- Witness for C5: a placeholder key in the request, an absent settings
sidecar, and a profile path that does not exist. -/
theorem c5_witness :
    ensureZaiShellEnv ⟨some (str "<API_KEY>"), str "/cfg", some (str "/home/u/.zshrc")⟩
        ⟨false, none, none, none, none, none, str "/home/u", fun _ => none, fun _ => false,
          fun _ => none, fun _ => none⟩ ⟨[], []⟩
      = (Except.ok ⟨.skipped, some (str "Z_AI_API_KEY not set (missing API key)"), none⟩,
          ⟨[], []⟩) :=
  c5_missing_key_skipped _ _ _ (by decide) rfl

/-- C6: when the existing profile content already carries an effective
assignment of the variable, `ensureZaiShellEnv` returns `skipped` with the
"already set in shell profile" message and the file table is byte-for-byte
unchanged, whatever the (different) requested value is. -/
theorem c6_profile_already_set (opts : EnsureOpts) (cfg : SysCfg) (st : SysState)
    (k p : JStr)
    (h1 : normalizeApiKey opts.apiKey = some k)
    (h2 : normalizeApiKey cfg.envZaiKey = none)
    (h3 : opts.profilePath = some p) (h4 : p ≠ [])
    (h5 : cfg.readFails p = none)
    (h6 : hasZaiKeyInProfile ((lookupFile st.files p).getD []) (detectShellFromPath p)
      = true) :
    (ensureZaiShellEnv opts cfg st).1
        = Except.ok ⟨.skipped, some (str "Z_AI_API_KEY already set in shell profile"),
            some p⟩
      ∧ ((ensureZaiShellEnv opts cfg st).2).files = st.files := by
  simp only [ensureZaiShellEnv, h1, h2, h3]
  rw [if_neg h4, if_pos h4]
  by_cases hmk : cfg.mkdirFails (dirname p) = true
  · rw [if_pos hmk]
    rw [ensure_read_skip cfg st k p (detectShellFromPath p) h5 h6]
    exact ⟨rfl, rfl⟩
  · rw [if_neg hmk]
    rw [ensure_read_skip cfg { st with dirs := dirname p :: st.dirs } k p
      (detectShellFromPath p) h5 h6]
    exact ⟨rfl, rfl⟩

/-- Witness for C6: profile already holding `export Z_AI_API_KEY="existing-key"`
while a different key `new-key` is requested. -/
theorem c6_witness :
    (ensureZaiShellEnv ⟨some (str "new-key"), str "/cfg", some (str "/home/u/.zshrc")⟩
        ⟨false, none, none, none, none, none, str "/home/u", fun _ => none, fun _ => false,
          fun _ => none, fun _ => none⟩
        ⟨[(str "/home/u/.zshrc", str "export Z_AI_API_KEY=\"existing-key\"\n")], []⟩).1
        = Except.ok ⟨.skipped, some (str "Z_AI_API_KEY already set in shell profile"),
            some (str "/home/u/.zshrc")⟩
      ∧ ((ensureZaiShellEnv ⟨some (str "new-key"), str "/cfg", some (str "/home/u/.zshrc")⟩
          ⟨false, none, none, none, none, none, str "/home/u", fun _ => none, fun _ => false,
            fun _ => none, fun _ => none⟩
          ⟨[(str "/home/u/.zshrc", str "export Z_AI_API_KEY=\"existing-key\"\n")], []⟩).2).files
          = [(str "/home/u/.zshrc", str "export Z_AI_API_KEY=\"existing-key\"\n")] :=
  c6_profile_already_set _ _ _ (str "new-key") (str "/home/u/.zshrc")
    (by decide) rfl rfl (by decide) rfl (by decide)

/-- C10: with an explicit profile path whose basename matches no known
pattern (`unknown` dialect) and a fresh non-placeholder key against an
absent profile file, `ensureZaiShellEnv` does not fail: it provisions the
file with the POSIX rendering (Unix markers and `export Z_AI_API_KEY`) and
returns `updated`. -/
theorem c10_unknown_dialect_updates (opts : EnsureOpts) (cfg : SysCfg) (st : SysState)
    (k p : JStr)
    (h1 : normalizeApiKey opts.apiKey = some k)
    (h2 : normalizeApiKey cfg.envZaiKey = none)
    (h3 : opts.profilePath = some p) (h4 : p ≠ [])
    (h5 : detectShellFromPath p = .unknown)
    (h6 : lookupFile st.files p = none)
    (h7 : cfg.writeFails p = none) :
    (ensureZaiShellEnv opts cfg st).1
        = Except.ok ⟨.updated, some (str "Run: source " ++ p), some p⟩
      ∧ ((ensureZaiShellEnv opts cfg st).2).files
          = setFile st.files p (upsertBlock [] (renderBlock k .unknown) .unknown)
      ∧ renderBlock k .unknown
          = BLOCK_START_UNIX ++ str "\nexport Z_AI_API_KEY=\"" ++ k ++ str "\"\n"
            ++ BLOCK_END_UNIX ++ str "\n" := by
  have hrender : renderBlock k .unknown
      = BLOCK_START_UNIX ++ str "\nexport Z_AI_API_KEY=\"" ++ k ++ str "\"\n"
        ++ BLOCK_END_UNIX ++ str "\n" := by
    unfold renderBlock
    rw [if_neg (by decide)]
  have hcore : ∀ st1 : SysState,
      ensureCore cfg st1 k p .unknown []
        = (Except.ok ⟨.updated, some (str "Run: source " ++ p), some p⟩,
            ⟨setFile st1.files p (upsertBlock [] (renderBlock k .unknown) .unknown),
              st1.dirs⟩) := by
    intro st1
    unfold ensureCore
    rw [if_neg (by decide : ¬ (hasZaiKeyInProfile [] ShellType.unknown = true))]
    rw [if_neg (upsert_out_shape [] (renderBlock k .unknown) .unknown).1]
    rw [h7]
    rw [if_neg (by decide : ¬ (ShellType.unknown = ShellType.powershell ∨
      ShellType.unknown = ShellType.powershellCore))]
  simp only [ensureZaiShellEnv, h1, h2, h3]
  rw [if_neg h4, if_pos h4, h5]
  by_cases hmk : cfg.mkdirFails (dirname p) = true
  · rw [if_pos hmk]
    have hex : existsSync st p = false := by
      unfold existsSync
      rw [h6]
      rfl
    rw [if_neg (by rw [hex]; exact Bool.false_ne_true), hcore st]
    exact ⟨rfl, rfl, hrender⟩
  · rw [if_neg hmk]
    have hex : existsSync { st with dirs := dirname p :: st.dirs } p = false := by
      unfold existsSync
      rw [show ({ st with dirs := dirname p :: st.dirs } : SysState).files = st.files from rfl,
        h6]
      rfl
    rw [if_neg (by rw [hex]; exact Bool.false_ne_true),
      hcore { st with dirs := dirname p :: st.dirs }]
    exact ⟨rfl, rfl, hrender⟩

/-- Witness for C10: explicit path `/home/u/.profile` (unknown dialect),
fresh key `abc123`, empty file system. -/
theorem c10_witness :
    (ensureZaiShellEnv ⟨some (str "abc123"), str "/cfg", some (str "/home/u/.profile")⟩
        ⟨false, none, none, none, none, none, str "/home/u", fun _ => none, fun _ => false,
          fun _ => none, fun _ => none⟩ ⟨[], []⟩).1
        = Except.ok ⟨.updated, some (str "Run: source " ++ str "/home/u/.profile"),
            some (str "/home/u/.profile")⟩
      ∧ ((ensureZaiShellEnv ⟨some (str "abc123"), str "/cfg", some (str "/home/u/.profile")⟩
          ⟨false, none, none, none, none, none, str "/home/u", fun _ => none, fun _ => false,
            fun _ => none, fun _ => none⟩ ⟨[], []⟩).2).files
          = setFile [] (str "/home/u/.profile")
              (upsertBlock [] (renderBlock (str "abc123") .unknown) .unknown)
      ∧ renderBlock (str "abc123") .unknown
          = BLOCK_START_UNIX ++ str "\nexport Z_AI_API_KEY=\"" ++ str "abc123"
            ++ str "\"\n" ++ BLOCK_END_UNIX ++ str "\n" :=
  c10_unknown_dialect_updates _ _ _ (str "abc123") (str "/home/u/.profile")
    (by decide) rfl rfl (by decide) (by decide) rfl rfl

/-- C8: dialect detection from an explicit profile path maps a basename
ending in `.ps1` to powershell, basename `.zshrc` to zsh, basenames
`.bashrc` / `.bash_profile` to bash, and everything else to unknown; and
for a `.ps1` path the rendered block uses the PowerShell
`$env:Z_AI_API_KEY="value"` syntax, not the POSIX `export` syntax. -/
theorem c8_dialect_detection (p k : JStr) :
    (basename p = str ".zshrc" → detectShellFromPath p = .zsh) ∧
    ((basename p = str ".bashrc" ∨ basename p = str ".bash_profile") →
      detectShellFromPath p = .bash) ∧
    (jsEndsWith (basename p) (str ".ps1") = true →
      detectShellFromPath p = .powershell ∧
      renderBlock k (detectShellFromPath p)
        = BLOCK_START_POWERSHELL ++ str "\n$env:Z_AI_API_KEY=\"" ++ k ++ str "\"\n"
          ++ BLOCK_END_POWERSHELL ++ str "\n") ∧
    (jsEndsWith (basename p) (str ".ps1") = false → basename p ≠ str ".zshrc" →
      basename p ≠ str ".bashrc" → basename p ≠ str ".bash_profile" →
      detectShellFromPath p = .unknown) := by
  refine ⟨?_, ?_, ?_, ?_⟩
  · intro h
    simp only [detectShellFromPath]
    rw [h]
    decide
  · rintro (h | h) <;>
    · simp only [detectShellFromPath]
      rw [h]
      decide
  · intro h
    have hdet : detectShellFromPath p = .powershell := by
      simp only [detectShellFromPath]
      rw [if_pos h]
    refine ⟨hdet, ?_⟩
    rw [hdet]
    unfold renderBlock
    rw [if_pos (Or.inl rfl)]
  · intro h hz hb hbp
    simp only [detectShellFromPath]
    rw [if_neg (by rw [h]; exact Bool.false_ne_true), if_neg hz,
      if_neg (by rintro (hc | hc); exact hb hc; exact hbp hc)]

/-- Witness for C8 at four concrete profile paths. -/
theorem c8_witness :
    detectShellFromPath (str "/home/u/.zshrc") = .zsh ∧
    detectShellFromPath (str "/home/u/.bashrc") = .bash ∧
    (detectShellFromPath (str "/home/u/profile.ps1") = .powershell ∧
      renderBlock (str "xyz789") (detectShellFromPath (str "/home/u/profile.ps1"))
        = BLOCK_START_POWERSHELL ++ str "\n$env:Z_AI_API_KEY=\"" ++ str "xyz789"
          ++ str "\"\n" ++ BLOCK_END_POWERSHELL ++ str "\n") ∧
    detectShellFromPath (str "/home/u/.profile") = .unknown :=
  ⟨(c8_dialect_detection (str "/home/u/.zshrc") (str "xyz789")).1 (by decide),
   (c8_dialect_detection (str "/home/u/.bashrc") (str "xyz789")).2.1 (Or.inl (by decide)),
   (c8_dialect_detection (str "/home/u/profile.ps1") (str "xyz789")).2.2.1 (by decide),
   (c8_dialect_detection (str "/home/u/.profile") (str "xyz789")).2.2.2 (by decide)
     (by decide) (by decide) (by decide)⟩

/-- C2 (corrected), counterexample: an injected I/O failure of the final
profile write escapes `ensureZaiShellEnv` as an uncaught exception
(`Except.error`), not as a structured `failed` result — the source calls
`fs.writeFileSync` outside any `try/catch`. -/
theorem c2_counterexample :
    (ensureZaiShellEnv ⟨some (str "abc123"), str "/cfg", some (str "/home/u/.zshrc")⟩
        ⟨false, none, none, none, none, none, str "/home/u", fun _ => none, fun _ => false,
          fun _ => none, fun _ => some (str "EACCES: permission denied")⟩
        ⟨[], []⟩).1
      = Except.error (str "EACCES: permission denied") := by
  rfl

/-- C2 (amended): whenever the profile-read and final-write primitives do
not fail, `ensureZaiShellEnv` returns a structured result on every input —
no other step can raise; read/write failures, by contrast, propagate to the
caller as exceptions carrying the underlying error message. -/
theorem ensureCore_ok (cfg : SysCfg) (st1 : SysState) (apiKey profile : JStr)
    (shell : ShellType) (existing : JStr) (hw : cfg.writeFails profile = none) :
    exceptOk (ensureCore cfg st1 apiKey profile shell existing).1 = true := by
  unfold ensureCore
  by_cases h1 : hasZaiKeyInProfile existing shell = true
  · rw [if_pos h1]
    rfl
  · rw [if_neg h1]
    by_cases h2 : upsertBlock existing (renderBlock apiKey shell) shell = existing
    · rw [if_pos h2]
      rfl
    · rw [if_neg h2, hw]
      rfl

theorem c2_structured_unless_io (opts : EnsureOpts) (cfg : SysCfg) (st : SysState)
    (hr : ∀ q, cfg.readFails q = none) (hw : ∀ q, cfg.writeFails q = none) :
    exceptOk (ensureZaiShellEnv opts cfg st).1 = true := by
  simp only [ensureZaiShellEnv]
  repeat' split
  all_goals first
    | rfl
    | exact ensureCore_ok _ _ _ _ _ _ (hw _)
    | simp_all [hr]

/-- Witness for C2 on a concrete failure-free world. -/
theorem c2_witness :
    exceptOk (ensureZaiShellEnv ⟨some (str "abc123"), str "/cfg", some (str "/home/u/.zshrc")⟩
        ⟨false, none, none, none, none, none, str "/home/u", fun _ => none, fun _ => false,
          fun _ => none, fun _ => none⟩ ⟨[], []⟩).1 = true :=
  c2_structured_unless_io _ _ _ (fun _ => rfl) (fun _ => rfl)
